import Mathlib

/-!
Verification development for the single-file IVASMS OTP bot (`bot.py`).

The bot keeps a SQLite ledger (users, earnings, available_numbers, otps,
withdrawals), scrapes raw inbox text, mines `(number, otp)` pairs out of it
with regular-expression windows, credits number owners per OTP, and runs a
pending/approved withdrawal workflow.

The embedding below models:
* the two regular expressions `(?:\+?\d{6,15})` (phone scan, via `re.finditer`
  / `re.findall` leftmost-greedy semantics) and `\b(\d{4,8})\b` (`OTP_RE`,
  with ASCII word boundaries) as executable functions on `List Char`;
* each SQLite table as a list of rows in insertion order, with the DB helper
  functions (`ensure_user`, `get_balance`, `credit_user`,
  `add_available_number`, `get_user_by_number`, `otp_exists`, `save_otp`,
  `create_withdrawal`, `approve_withdrawal`) translated statement by
  statement; Python floats are modelled as `ℚ`, timestamps as `Nat` values
  supplied by the caller;
* the matcher loop of `process_incoming_otps_single_scraper` (the network
  fetch is external: the raw page text is a parameter), the crediting part of
  `otp_poll_loop`, `sync_numbers_from_ivasms`, and the withdrawal handlers
  `cb_withdraw` / `handle_withdraw_text` (message transport is external; the
  parsed fields of the already-regex-matched message are parameters).
-/

namespace IvasmsBot

/-! ### Character classes (ASCII, as used by the bot's regexes on page text) -/

/-- Python regex word character (`\w` over the ASCII range): letter, digit
or underscore.  Used for the `\b` boundaries of `OTP_RE`. -/
def isWordChar (c : Char) : Bool := c.isAlphanum || c == '_'

/-- Length of the maximal digit run at the head of the list (`\d*`). -/
def digitRun : List Char → Nat
  | [] => 0
  | c :: cs => if c.isDigit then digitRun cs + 1 else 0

/-! ### The phone-number regex `(?:\+?\d{6,15})` -/

/-- Length of the leftmost-greedy match of `\+?\d{6,15}` anchored at the head
of `s`, or `none`.  Greedy `\+?` first tries to consume a `+`; `\d{6,15}`
then needs at least 6 digits and consumes at most 15. -/
def phoneMatchLen (s : List Char) : Option Nat :=
  match s with
  | [] => none
  | c :: cs =>
    if c == '+' then
      if 6 ≤ digitRun cs then some (1 + min (digitRun cs) 15) else none
    else if c.isDigit then
      if 6 ≤ digitRun s then some (min (digitRun s) 15) else none
    else none

/-- `re.finditer` scan for the phone pattern: from the current position, try
to match; on success record `(start, length)` and resume at the match end,
otherwise advance one character.  `fuel` bounds recursion (one unit per
consumed character, so `s.length` suffices). -/
def findPhonesAux : Nat → List Char → Nat → List (Nat × Nat)
  | 0, _, _ => []
  | _ + 1, [], _ => []
  | fuel + 1, s@(_ :: cs), i =>
    match phoneMatchLen s with
    | some L => (i, L) :: findPhonesAux fuel (s.drop L) (i + L)
    | none => findPhonesAux fuel cs (i + 1)

/-- All `(start, length)` phone-shaped match occurrences in `text`, in order
of appearance (the scan of `re.finditer(r"(?:\+?\d{6,15})", text)`). -/
def findPhonesList (text : List Char) : List (Nat × Nat) :=
  findPhonesAux text.length text 0

/-- The slice `text[i : i+L]` (a match's `.group(0)`). -/
def sliceAt (text : List Char) (i L : Nat) : List Char := (text.drop i).take L

/-- `re.findall(r"(?:\+?\d{6,15})", text)`: the matched substrings. -/
def extractNumbers (text : List Char) : List (List Char) :=
  (findPhonesList text).map fun p => sliceAt text p.1 p.2

/-! ### The OTP regex `OTP_RE = \b(\d{4,8})\b` -/

/-- Scan for the leftmost match of `\b(\d{4,8})\b` in the remaining text.
`prevW` says whether the character before the current position is a word
character (`false` at the start of the searched string).  A match is a
maximal digit run of length 4–8 whose neighbours are non-word characters (or
the string ends): greedy `\d{4,8}` with a trailing `\b` can only succeed by
consuming the whole run, since stopping inside the run puts a digit after
the boundary. -/
def otpSearchAux : Nat → Bool → List Char → Option (List Char)
  | 0, _, _ => none
  | _ + 1, _, [] => none
  | fuel + 1, prevW, c :: cs =>
    if c.isDigit && !prevW
        && decide (4 ≤ digitRun (c :: cs)) && decide (digitRun (c :: cs) ≤ 8)
        && !(match (c :: cs).drop (digitRun (c :: cs)) with
             | [] => false
             | d :: _ => isWordChar d) then
      some ((c :: cs).take (digitRun (c :: cs)))
    else
      otpSearchAux fuel (isWordChar c) cs

/-- `OTP_RE.search(w)`, returning the captured digit group. -/
def otpSearch (w : List Char) : Option (List Char) :=
  otpSearchAux w.length false w

/-- The spec's "shaped like a phone number": an optional leading `+`
followed by 6 to 15 digits (a full match of `\+?\d{6,15}`). -/
def phoneShapedB (s : List Char) : Bool :=
  match s with
  | '+' :: ds => ds.all Char.isDigit && decide (6 ≤ ds.length) && decide (ds.length ≤ 15)
  | ds => ds.all Char.isDigit && decide (6 ≤ ds.length) && decide (ds.length ≤ 15)

/-! ### Ledger rows (the five SQLite tables, as lists in insertion order) -/

/-- A row of `users`. -/
structure UserRec where
  user_id : Nat
  username : Option String
  created_at : Nat
  deriving DecidableEq, Repr

/-- A row of `otps`. -/
structure OtpRec where
  number : List Char
  otp : List Char
  full_msg : List Char
  service : String
  country : String
  fetched_at : Nat
  deriving DecidableEq, Repr

/-- A row of `available_numbers`. -/
structure NumRec where
  number : List Char
  country : String
  assigned_to : Option Nat
  added_at : Nat
  deriving DecidableEq, Repr

/-- Withdrawal status: `'pending'` or `'approved'`. -/
inductive WStatus where
  | pending
  | approved
  deriving DecidableEq, Repr

/-- A row of `withdrawals`. -/
structure WRec where
  id : Nat
  user_id : Nat
  amount : ℚ
  method : String
  target : List Char
  status : WStatus
  requested_at : Nat
  deriving DecidableEq, Repr

/-- The whole SQLite database `data.db`.  `nextWid` models the AUTOINCREMENT
counter behind `withdrawals.id` (`lastrowid` starts at 1). -/
structure DB where
  users : List UserRec
  earnings : List (Nat × ℚ)
  numbers : List NumRec
  otps : List OtpRec
  withdrawals : List WRec
  nextWid : Nat
  deriving DecidableEq, Repr

/-- The freshly created empty database (`init_db`). -/
def DB.empty : DB := ⟨[], [], [], [], [], 1⟩

/-! ### DB helpers (the functions under `# DB helpers` in `bot.py`) -/

/-- Does `users` contain a row for `uid`?  (`user_id` is the primary key, so
`INSERT OR IGNORE` checks exactly this.) -/
def usersHas (db : DB) (uid : Nat) : Bool := db.users.any fun r => r.user_id == uid

/-- Does `earnings` contain a row for `uid`? -/
def earningsHas (db : DB) (uid : Nat) : Bool := db.earnings.any fun p => p.1 == uid

/-- `ensure_user(user_id, username)`: `INSERT OR IGNORE` into `users`, then
`INSERT OR IGNORE INTO earnings (user_id, balance) VALUES (?, 0.0)`.
`now` is the environment's `CURRENT_TIMESTAMP` for the insert. -/
def ensureUser (db : DB) (uid : Nat) (uname : Option String) (now : Nat) : DB :=
  let db1 := if usersHas db uid then db
             else { db with users := db.users ++ [⟨uid, uname, now⟩] }
  if earningsHas db1 uid then db1
  else { db1 with earnings := db1.earnings ++ [(uid, 0)] }

/-- First-row balance lookup on a bare earnings list. -/
def balOf (l : List (Nat × ℚ)) (uid : Nat) : ℚ :=
  match l.find? (fun p => p.1 == uid) with
  | some p => p.2
  | none => 0

/-- `get_balance(user_id)`: `SELECT balance FROM earnings WHERE user_id=?`,
returning `0.0` when no row exists. -/
def getBalance (db : DB) (uid : Nat) : ℚ := balOf db.earnings uid

/-- `UPDATE earnings SET balance = g(balance) WHERE user_id = uid`, as a map
over the rows (row keys are untouched). -/
def updEarnings (l : List (Nat × ℚ)) (uid : Nat) (g : ℚ → ℚ) : List (Nat × ℚ) :=
  l.map fun p => if p.1 == uid then (p.1, g p.2) else p

/-- `credit_user(user_id, amount)`: insert a zero row if absent, then
`UPDATE earnings SET balance = balance + ? WHERE user_id=?`. -/
def creditUser (db : DB) (uid : Nat) (amount : ℚ) : DB :=
  let e := if earningsHas db uid then db.earnings else db.earnings ++ [(uid, 0)]
  { db with earnings := updEarnings e uid (· + amount) }

/-- Does `available_numbers` contain `num` (its primary key)? -/
def numbersHasKey (db : DB) (num : List Char) : Bool :=
  db.numbers.any fun r => r.number == num

/-- First `available_numbers` row for `num`, if any. -/
def lookupNumber (db : DB) (num : List Char) : Option NumRec :=
  db.numbers.find? fun r => r.number == num

/-- `add_available_number(number, country)`: `INSERT OR IGNORE` keyed on the
number. -/
def addAvailableNumber (db : DB) (num : List Char) (country : String) (now : Nat) : DB :=
  if numbersHasKey db num then db
  else { db with numbers := db.numbers ++ [⟨num, country, none, now⟩] }

/-- `get_user_by_number(number)`: `SELECT assigned_to FROM available_numbers
WHERE number=?`; `none` both when the number is unknown and when the row's
`assigned_to` is NULL. -/
def getUserByNumber (db : DB) (num : List Char) : Option Nat :=
  match lookupNumber db num with
  | some r => r.assigned_to
  | none => none

/-- `otp_exists(number, otp)` on a bare history list: `SELECT 1 FROM otps
WHERE number=? AND otp=?` is non-empty. -/
def otpExistsL (hist : List OtpRec) (n o : List Char) : Bool :=
  hist.any fun r => r.number == n && r.otp == o

/-- `otp_exists` against the database. -/
def otpExists (db : DB) (n o : List Char) : Bool := otpExistsL db.otps n o

/-- `save_otp(...)`: plain `INSERT INTO otps` (the table has no uniqueness
constraint on the pair — dedup lives entirely in the `otp_exists` check). -/
def saveOtp (db : DB) (r : OtpRec) : DB := { db with otps := db.otps ++ [r] }

/-- `create_withdrawal(user_id, amount, method, target)`: insert a `pending`
row and return `lastrowid`. -/
def createWithdrawal (db : DB) (uid : Nat) (amount : ℚ) (method : String)
    (target : List Char) (now : Nat) : Nat × DB :=
  (db.nextWid,
   { db with
     withdrawals := db.withdrawals ++ [⟨db.nextWid, uid, amount, method, target, .pending, now⟩],
     nextWid := db.nextWid + 1 })

/-- `SELECT user_id, amount FROM withdrawals WHERE id=? AND status='pending'`
(first matching row). -/
def findPendingW (db : DB) (wid : Nat) : Option WRec :=
  db.withdrawals.find? fun w => w.id == wid && w.status == WStatus.pending

/-- Set `status='approved'` on every withdrawal row with this id. -/
def setApproved (l : List WRec) (wid : Nat) : List WRec :=
  l.map fun w => if w.id == wid then { w with status := .approved } else w

/-- `approve_withdrawal(wid)`: look up the pending request; fail when absent;
fail when the user has no earnings row or `balance < amount`; otherwise
debit the balance, flip the status, and commit — all before a single
`conn.commit()`, i.e. one step here. -/
def approveWithdrawal (db : DB) (wid : Nat) : Bool × DB :=
  match findPendingW db wid with
  | none => (false, db)
  | some w =>
    match db.earnings.find? (fun p => p.1 == w.user_id) with
    | none => (false, db)
    | some p =>
      if p.2 < w.amount then (false, db)
      else
        (true,
         { db with
           earnings := updEarnings db.earnings w.user_id (· - w.amount),
           withdrawals := setApproved db.withdrawals wid })

/-! ### Inventory sync (`sync_numbers_from_ivasms`) -/

/-- The pure core of `sync_numbers_from_ivasms()` applied to the fetched page
text: `found = re.findall(...)`; `for num in set(found): add_available_number
(num); added += 1; return added`.  Python's `set(found)` is modelled as
`eraseDups` (first occurrences); the counter increments for *every* distinct
extracted number, whether or not it was already stored. -/
def syncNumbers (db : DB) (text : List Char) (now : Nat) : Nat × DB :=
  ((extractNumbers text).eraseDups).foldl
    (fun acc num => (acc.1 + 1, addAvailableNumber acc.2 num "UNKNOWN" now)) (0, db)

/-! ### OTP detection and the matcher loop -/

/-- Does `needle` occur as a contiguous subsequence of `hay` (Python's
`needle in hay` on strings, for non-empty needles)? -/
def containsSeq (hay needle : List Char) : Bool :=
  match hay with
  | [] => needle.isEmpty
  | _ :: t => needle.isPrefixOf hay || containsSeq t needle

/-- `detect_service(text)`: lower-case the snippet and scan the fixed keyword
list in order; first hit wins (capitalized), else `"Service"`. -/
def detectService (snippet : List Char) : String :=
  let t := snippet.map Char.toLower
  if containsSeq t "whatsapp".toList then "Whatsapp"
  else if containsSeq t "facebook".toList then "Facebook"
  else if containsSeq t "telegram".toList then "Telegram"
  else if containsSeq t "google".toList then "Google"
  else if containsSeq t "instagram".toList then "Instagram"
  else if containsSeq t "tiktok".toList then "Tiktok"
  else if containsSeq t "netflix".toList then "Netflix"
  else if containsSeq t "clerk".toList then "Clerk"
  else "Service"

/-- `window = text[start : start+400]` where `start = m.end()`. -/
def fwdWindow (text : List Char) (endIdx : Nat) : List Char :=
  (text.drop endIdx).take 400

/-- `back_window = text[max(0, m.start()-200) : m.start()]`. -/
def backWindow (text : List Char) (startIdx : Nat) : List Char :=
  (text.drop (startIdx - 200)).take (min startIdx 200)

/-- The OTP picked for one number occurrence: search the forward window
first, then the backward window. -/
def occOtp (text : List Char) (startIdx endIdx : Nat) : Option (List Char) :=
  match otpSearch (fwdWindow text endIdx) with
  | some o => some o
  | none => otpSearch (backWindow text startIdx)

/-- `snippet = (window[:300] or back_window[-300:]) if window or back_window
else ""` (with Python string truthiness). -/
def occSnippet (text : List Char) (startIdx endIdx : Nat) : List Char :=
  let w := fwdWindow text endIdx
  let b := backWindow text startIdx
  if w.isEmpty then b.drop (b.length - 300) else w.take 300

/-- The record `save_otp` receives for an occurrence at `(i, L)` whose mined
OTP is `o`: number slice, OTP, snippet, `detect_service(snippet)`, country
`"UNKNOWN"`, fetch time. -/
def occRec (text : List Char) (now i L : Nat) (o : List Char) : OtpRec :=
  ⟨sliceAt text i L, o, occSnippet text i (i + L),
   detectService (occSnippet text i (i + L)), "UNKNOWN", now⟩

/-- The `for m in re.finditer(...)` loop body of
`process_incoming_otps_single_scraper`, folded over the occurrence list:
threading the `otps` history (each `save_otp` commits before the next
`otp_exists` read) and accumulating the `results` list in order. -/
def processOccsL (text : List Char) (now : Nat) :
    List OtpRec → List (Nat × Nat) → List OtpRec × List OtpRec
  | hist, [] => (hist, [])
  | hist, (i, L) :: rest =>
    match occOtp text i (i + L) with
    | none => processOccsL text now hist rest
    | some o =>
      if otpExistsL hist (sliceAt text i L) o then processOccsL text now hist rest
      else
        let p := processOccsL text now (hist ++ [occRec text now i L o]) rest
        (p.1, occRec text now i L o :: p.2)

/-- `process_incoming_otps_single_scraper` on the fetched page text: returns
the updated database (all `save_otp` inserts) and the `results` list. -/
def processIncoming (db : DB) (text : List Char) (now : Nat) : DB × List OtpRec :=
  let p := processOccsL text now db.otps (findPhonesList text)
  ({ db with otps := p.1 }, p.2)

/-- The crediting half of one `otp_poll_loop` iteration: for each result,
look up the owner and — Python truthiness of `if owner:` — credit it with
`EARN_PER_SMS` unless the owner id is 0.  Notification sends are external
fire-and-forget calls and do not touch the ledger. -/
def creditResults (db : DB) (results : List OtpRec) (earn : ℚ) : DB :=
  results.foldl
    (fun d r =>
      match getUserByNumber d r.number with
      | some u => if u == 0 then d else creditUser d u earn
      | none => d) db

/-- One full poll cycle on a fetched snapshot: the matcher pass (which
commits every `save_otp`) followed by the crediting pass. -/
def pollCycle (db : DB) (text : List Char) (earn : ℚ) (now : Nat) : DB :=
  let p := processIncoming db text now
  creditResults p.1 p.2 earn

/-- The intermediate database state after `process_incoming_otps_single_scraper`
has returned (all its transactions committed) and before `otp_poll_loop`
runs any `credit_user` call. -/
def midPollState (db : DB) (text : List Char) (now : Nat) : DB :=
  (processIncoming db text now).1

/-! ### Withdrawal submission handlers -/

/-- `cb_withdraw`: `ensure_user`; read the balance; if it is below
`MIN_WITHDRAWAL`, reply and leave the state alone; otherwise put the user
into the `"awaiting_withdraw"` state.  (The minimum is compared against the
*balance*, not against any requested amount.) -/
def cbWithdraw (minW : ℚ) (db : DB) (st : List Nat) (uid : Nat)
    (uname : Option String) (now : Nat) : DB × List Nat :=
  let db1 := ensureUser db uid uname now
  if getBalance db1 uid < minW then (db1, st)
  else (db1, if st.contains uid then st else st ++ [uid])

/-- `handle_withdraw_text` on a message that already passed the
`^(bkash|nagad|rocket|bank),\s*\d+,\s*\d+(\.\d+)?$` filter (so `method`,
`target`, and the non-negative `amount` are the parsed pieces): do nothing
unless the user is awaiting; reject when `amount > bal`; otherwise
`create_withdrawal` and report the id.  In every handled case the awaiting
state is popped. -/
def handleWithdrawText (db : DB) (st : List Nat) (uid : Nat) (method : String)
    (target : List Char) (amount : ℚ) (now : Nat) : DB × List Nat × Option Nat :=
  if ! st.contains uid then (db, st, none)
  else if getBalance db uid < amount then (db, st.erase uid, none)
  else
    let p := createWithdrawal db uid amount method target now
    (p.2, st.erase uid, some p.1)

/-! ### Derived observers used by the statements -/

/-- The deduplication key of an OTP record. -/
def pairOf (r : OtpRec) : List Char × List Char := (r.number, r.otp)

/-- Number of OTP history rows carrying the pair `(n, o)`. -/
def pairCount (hist : List OtpRec) (n o : List Char) : Nat :=
  (hist.filter fun r => r.number == n && r.otp == o).length

/-- A sequence of completed matcher calls: each run is a fetched snapshot
text together with its timestamp. -/
def processMany (db : DB) (runs : List (List Char × Nat)) : DB :=
  runs.foldl (fun d p => (processIncoming d p.1 p.2).1) db

/-- First `users` row for `uid`. -/
def lookupUser (db : DB) (uid : Nat) : Option UserRec :=
  db.users.find? fun r => r.user_id == uid

/-- Number of `users` rows for `uid`. -/
def usersCount (db : DB) (uid : Nat) : Nat :=
  (db.users.filter fun r => r.user_id == uid).length

/-- Number of `earnings` rows for `uid`. -/
def earnRowsCount (db : DB) (uid : Nat) : Nat :=
  (db.earnings.filter fun p => p.1 == uid).length

/-- The database part of a sync call. -/
def syncStore (db : DB) (text : List Char) (now : Nat) : DB :=
  (syncNumbers db text now).2

/-! ### Ledger event traces (for the balance-accounting invariant)

The operations that write the `earnings` table in `bot.py` are
`ensure_user` (zero row), `credit_user` (called by `otp_poll_loop` with
`EARN_PER_SMS` for the owner of a credited number) and
`approve_withdrawal`; `create_withdrawal` writes only `withdrawals`.
(`debit_user` exists in the source but has no caller.)  A trace is any
interleaving of these ledger writes. -/

/-- A ledger-writing event. -/
inductive Ev where
  | ensure (uid : Nat) (uname : Option String) (now : Nat)
  | credit (uid : Nat) (amt : ℚ)
  | subW (uid : Nat) (amt : ℚ) (method : String) (target : List Char) (now : Nat)
  | approve (wid : Nat)
  deriving DecidableEq, Repr

/-- Apply one event to the database. -/
def applyEv (db : DB) : Ev → DB
  | .ensure u un now => ensureUser db u un now
  | .credit u a => creditUser db u a
  | .subW u a m t now => (createWithdrawal db u a m t now).2
  | .approve w => (approveWithdrawal db w).2

/-- Run a trace from the freshly initialised database. -/
def runTrace (evs : List Ev) : DB := evs.foldl applyEv DB.empty

/-- The amount an event credits to `uid` (zero for non-credit events). -/
def creditAmt (uid : Nat) : Ev → ℚ
  | .credit u a => if u == uid then a else 0
  | _ => 0

/-- Total per-OTP rewards credited to `uid` along a trace. -/
def creditTotal (evs : List Ev) (uid : Nat) : ℚ :=
  (evs.map (creditAmt uid)).sum

/-- Sum of amounts of `uid`'s `approved` rows in a withdrawals list. -/
def approvedTotalL (l : List WRec) (uid : Nat) : ℚ :=
  ((l.filter fun w => w.user_id == uid && w.status == WStatus.approved).map
    fun w => w.amount).sum

/-- Total amount debited by `uid`'s approved withdrawals, read off the
stored table (each request flips to `approved` at most once). -/
def approvedTotal (db : DB) (uid : Nat) : ℚ := approvedTotalL db.withdrawals uid

/-- Credits are never negative: `EARN_PER_SMS` is a non-negative reward. -/
def evNonneg : Ev → Prop
  | .credit _ a => 0 ≤ a
  | _ => True

instance evNonnegDecidable : DecidablePred evNonneg := fun e =>
  match e with
  | .ensure _ _ _ => .isTrue trivial
  | .credit _ a => inferInstanceAs (Decidable (0 ≤ a))
  | .subW _ _ _ _ _ => .isTrue trivial
  | .approve _ => .isTrue trivial

/-- Well-formedness of the withdrawals table maintained by the trace
operations: ids are pairwise distinct and below the autoincrement counter. -/
def GoodW (db : DB) : Prop :=
  (db.withdrawals.map fun w => w.id).Nodup ∧ ∀ w ∈ db.withdrawals, w.id < db.nextWid

/-- The accounting invariant: every balance equals the ghost credit total
minus the stored approved-withdrawal total, and is non-negative. -/
def BalInv (db : DB) (credits : Nat → ℚ) : Prop :=
  ∀ u, getBalance db u = credits u - approvedTotal db u ∧ 0 ≤ getBalance db u

/-! ### Concrete inputs used by the witnesses and counterexamples -/

/-- A snapshot whose duplicate halves exercise in-call deduplication. -/
def c1Text : List Char := "1234567 9999 and again 1234567 9999".toList

/-- The number owned by user 7 in the crediting scenario. -/
def c2Number : List Char := "+88017000000000".toList

/-- A snapshot carrying one OTP for that number. -/
def c2Text : List Char := "+88017000000000 x 123456".toList

/-- The OTP mined from `c2Text`. -/
def c2Otp : List Char := "123456".toList

/-- Ledger with `c2Number` assigned to user 7, balance 0, empty history. -/
def c2Db : DB :=
  { DB.empty with
    users := [⟨7, none, 0⟩],
    earnings := [(7, 0)],
    numbers := [⟨c2Number, "UNKNOWN", some 7, 0⟩] }

/-- The single result record mined from `c2Text`. -/
def c2ResRec : OtpRec :=
  ⟨c2Number, c2Otp, " x 123456".toList, "Service", "UNKNOWN", 0⟩

/-- The ledger after the matcher's committed writes on `c2Text`, before any
`credit_user` call of the poll loop. -/
def c2Mid : DB := { c2Db with otps := [c2ResRec] }

/-- Trace: user 1 registers, earns 300, requests 260, admin approves. -/
def c3Evs : List Ev :=
  [.ensure 1 none 0, .credit 1 300, .subW 1 260 "bkash" "0170".toList 1, .approve 1]

/-- Ledger with user 5 at balance 300 and withdrawal 1 pending over 260. -/
def c4Db : DB :=
  { DB.empty with
    users := [⟨5, none, 0⟩],
    earnings := [(5, 300)],
    withdrawals := [⟨1, 5, 260, "bkash", "0170".toList, .pending, 1⟩],
    nextWid := 2 }

/-- The pending request of `c4Db`. -/
def c4W : WRec := ⟨1, 5, 260, "bkash", "0170".toList, .pending, 1⟩

/-- Ledger with user 1 at balance 300 (above the minimum 250). -/
def c5Db : DB :=
  { DB.empty with users := [⟨1, none, 0⟩], earnings := [(1, 300)] }

/-- Snapshot whose mined OTP is itself phone-number shaped (6 digits). -/
def c6Text : List Char := "+88017000000000 x 123456".toList

/-- A snapshot with a tiny OTP next to a number, for the amended statement. -/
def c6SmallText : List Char := "1234567 9999".toList

/-- The record the matcher emits on `c6SmallText` from an empty history. -/
def c6Rec : OtpRec :=
  ⟨"1234567".toList, "9999".toList, " 9999".toList, "Service", "UNKNOWN", 0⟩

/-- The spec's window-policy example: code 4821 within 400 characters. -/
def c7Text : List Char := "+8801700000000 Your code is 4821 ok".toList

/-- The code of the window-policy example. -/
def c7Code : List Char := "4821".toList

/-- The far variant: the only digit run sits 440 characters after the number
and nothing precedes it. -/
def c7FarText : List Char :=
  "+8801700000000".toList ++ List.replicate 440 ' ' ++ "4821".toList

/-- A store that already contains the number `1234567`. -/
def c8Db : DB :=
  { DB.empty with numbers := [⟨"1234567".toList, "UNKNOWN", none, 0⟩] }

/-- Snapshot text for the sync examples. -/
def c9Text : List Char := "1234567".toList

/-- Ledger with user 3 registered and a credited balance of 12. -/
def c10Db : DB :=
  { DB.empty with users := [⟨3, some "alice", 4⟩], earnings := [(3, 12)] }

/-! ## Lemmas about the OTP history -/

lemma otpExistsL_eq_false_iff (hist : List OtpRec) (n o : List Char) :
    otpExistsL hist n o = false ↔ pairCount hist n o = 0 := by
  simp [otpExistsL, pairCount, List.length_eq_zero, List.filter_eq_nil_iff]

lemma pairCount_append (h : List OtpRec) (r : OtpRec) (n o : List Char) :
    pairCount (h ++ [r]) n o
      = pairCount h n o + if r.number == n && r.otp == o then 1 else 0 := by
  by_cases hc : (r.number == n && r.otp == o) = true
  · simp [pairCount, List.filter_append, hc]
  · simp only [Bool.not_eq_true] at hc
    simp [pairCount, List.filter_append, hc]

lemma otpExistsL_append (h : List OtpRec) (r : OtpRec) (n o : List Char) :
    otpExistsL (h ++ [r]) n o = (otpExistsL h n o || (r.number == n && r.otp == o)) := by
  simp [otpExistsL, List.any_append]

lemma processOccsL_pairCount_le_one (text : List Char) (now : Nat)
    (occs : List (Nat × Nat)) :
    ∀ hist n o, pairCount hist n o ≤ 1 →
      pairCount (processOccsL text now hist occs).1 n o ≤ 1 := by
  induction occs with
  | nil => intro hist n o h; simpa [processOccsL] using h
  | cons occ rest ih =>
    intro hist n o h
    obtain ⟨i, L⟩ := occ
    rcases hocc : occOtp text i (i + L) with _ | o0
    · simpa [processOccsL, hocc] using ih hist n o h
    · by_cases hex : otpExistsL hist (sliceAt text i L) o0 = true
      · simpa [processOccsL, hocc, hex] using ih hist n o h
      · simp only [Bool.not_eq_true] at hex
        have hnew : pairCount (hist ++ [occRec text now i L o0]) n o ≤ 1 := by
          rw [pairCount_append]
          by_cases hc : ((occRec text now i L o0).number == n
              && (occRec text now i L o0).otp == o) = true
          · have h1 : sliceAt text i L = n ∧ o0 = o := by
              simpa [occRec] using hc
            obtain ⟨rfl, rfl⟩ := h1
            have h0 : pairCount hist (sliceAt text i L) o0 = 0 :=
              (otpExistsL_eq_false_iff hist _ _).1 hex
            simp [hc, h0]
          · simp only [Bool.not_eq_true] at hc
            simpa [hc] using h
        simpa [processOccsL, hocc, hex] using ih _ n o hnew

lemma processOccsL_res_fresh (text : List Char) (now : Nat)
    (occs : List (Nat × Nat)) :
    ∀ hist r, r ∈ (processOccsL text now hist occs).2 →
      otpExistsL hist r.number r.otp = false := by
  induction occs with
  | nil => intro hist r hr; simp [processOccsL] at hr
  | cons occ rest ih =>
    intro hist r hr
    obtain ⟨i, L⟩ := occ
    rcases hocc : occOtp text i (i + L) with _ | o0
    · exact ih hist r (by simpa [processOccsL, hocc] using hr)
    · by_cases hex : otpExistsL hist (sliceAt text i L) o0 = true
      · exact ih hist r (by simpa [processOccsL, hocc, hex] using hr)
      · simp only [Bool.not_eq_true] at hex
        simp only [processOccsL, hocc, hex, Bool.false_eq_true, if_false] at hr
        rcases List.mem_cons.1 hr with rfl | hr'
        · simpa [occRec] using hex
        · have hmono := ih (hist ++ [occRec text now i L o0]) r hr'
          rw [otpExistsL_append] at hmono
          exact (Bool.or_eq_false_iff.1 hmono).1

lemma processOccsL_res_nodup (text : List Char) (now : Nat)
    (occs : List (Nat × Nat)) :
    ∀ hist, ((processOccsL text now hist occs).2.map pairOf).Nodup := by
  induction occs with
  | nil => intro hist; simp [processOccsL]
  | cons occ rest ih =>
    intro hist
    obtain ⟨i, L⟩ := occ
    rcases hocc : occOtp text i (i + L) with _ | o0
    · simpa [processOccsL, hocc] using ih hist
    · by_cases hex : otpExistsL hist (sliceAt text i L) o0 = true
      · simpa [processOccsL, hocc, hex] using ih hist
      · simp only [Bool.not_eq_true] at hex
        simp only [processOccsL, hocc, hex, Bool.false_eq_true, if_false]
        refine List.nodup_cons.2 ⟨?_, ih _⟩
        intro hmem
        obtain ⟨r, hr, hpair⟩ := List.mem_map.1 hmem
        have hfresh := processOccsL_res_fresh text now rest _ r hr
        rw [otpExistsL_append] at hfresh
        have h1 : r.number = sliceAt text i L ∧ r.otp = o0 := by
          have := hpair
          simp [pairOf, occRec, Prod.ext_iff] at this
          exact ⟨this.1, this.2⟩
        rw [Bool.or_eq_false_iff] at hfresh
        have h2 := hfresh.2
        simp [occRec, h1.1, h1.2] at h2

lemma processMany_pairCount_le_one (runs : List (List Char × Nat)) :
    ∀ db n o, pairCount db.otps n o ≤ 1 →
      pairCount (processMany db runs).otps n o ≤ 1 := by
  induction runs with
  | nil => intro db n o h; simpa [processMany] using h
  | cons run rest ih =>
    intro db n o h
    have h1 : pairCount ((processIncoming db run.1 run.2).1).otps n o ≤ 1 := by
      simpa [processIncoming] using
        processOccsL_pairCount_le_one run.1 run.2 (findPhonesList run.1) db.otps n o h
    simpa [processMany, List.foldl_cons] using ih _ n o h1

/-- C1: over any sequence of completed matcher calls, the OTP history keeps
at most one record per `(number, otp)` pair (also under duplicate and
overlapping snapshots), and the result list of a single call mentions each
pair at most once. -/
theorem c1_otp_history_pair_unique (init : DB) (text : List Char) (now : Nat)
    (runs : List (List Char × Nat)) (n o : List Char)
    (h : pairCount init.otps n o ≤ 1) :
    pairCount (processMany init ((text, now) :: runs)).otps n o ≤ 1
    ∧ ((processIncoming init text now).2.map pairOf).Nodup := by
  constructor
  · exact processMany_pairCount_le_one _ init n o h
  · simpa [processIncoming] using
      processOccsL_res_nodup text now (findPhonesList text) init.otps

/-! ## Lemmas about the earnings table -/

lemma balOf_nil (v : Nat) : balOf [] v = 0 := rfl

lemma balOf_cons (p : Nat × ℚ) (l : List (Nat × ℚ)) (v : Nat) :
    balOf (p :: l) v = if p.1 == v then p.2 else balOf l v := by
  by_cases h : (p.1 == v) = true <;> simp [balOf, List.find?_cons, h]

lemma balOf_append_zero (l : List (Nat × ℚ)) (u v : Nat) :
    balOf (l ++ [(u, 0)]) v = balOf l v := by
  induction l with
  | nil => by_cases h : (u == v) = true <;> simp [balOf_cons, balOf_nil, h]
  | cons hd tl ih =>
    by_cases h : (hd.1 == v) = true <;> simp [balOf_cons, h, ih]

lemma updEarnings_cons (p : Nat × ℚ) (l : List (Nat × ℚ)) (u : Nat) (g : ℚ → ℚ) :
    updEarnings (p :: l) u g
      = (if p.1 == u then (p.1, g p.2) else p) :: updEarnings l u g := rfl

lemma balOf_updEarnings_ne (l : List (Nat × ℚ)) (u : Nat) (g : ℚ → ℚ) (v : Nat)
    (hvu : v ≠ u) : balOf (updEarnings l u g) v = balOf l v := by
  induction l with
  | nil => rfl
  | cons hd tl ih =>
    rw [updEarnings_cons]
    by_cases hku : hd.1 = u
    · have h1 : (hd.1 == u) = true := by simpa using hku
      have h2 : (hd.1 == v) = false := by
        simp only [beq_eq_false_iff_ne, ne_eq, hku]
        exact fun h => hvu h.symm
      simp [balOf_cons, h1, h2, ih]
    · have h1 : (hd.1 == u) = false := by simpa using hku
      by_cases hkv : hd.1 = v
      · have h2 : (hd.1 == v) = true := by simpa using hkv
        simp [balOf_cons, h1, h2]
      · have h2 : (hd.1 == v) = false := by simpa using hkv
        simp [balOf_cons, h1, h2, ih]

lemma balOf_updEarnings_eq (l : List (Nat × ℚ)) (u : Nat) (g : ℚ → ℚ)
    (h : (l.any fun p => p.1 == u) = true) :
    balOf (updEarnings l u g) u = g (balOf l u) := by
  induction l with
  | nil => simp at h
  | cons hd tl ih =>
    rw [updEarnings_cons]
    by_cases hku : hd.1 = u
    · have h1 : (hd.1 == u) = true := by simpa using hku
      simp [balOf_cons, h1]
    · have h1 : (hd.1 == u) = false := by simpa using hku
      have h' : (tl.any fun p => p.1 == u) = true := by
        simpa [List.any_cons, h1] using h
      simp [balOf_cons, h1, ih h']

lemma getBalance_creditUser (db : DB) (u : Nat) (a : ℚ) (v : Nat) :
    getBalance (creditUser db u a) v
      = if v = u then getBalance db v + a else getBalance db v := by
  have h1 : getBalance (creditUser db u a) v
      = balOf (updEarnings (if earningsHas db u then db.earnings
          else db.earnings ++ [(u, 0)]) u (· + a)) v := rfl
  by_cases hv : v = u
  · rw [h1, hv, if_pos rfl]
    have hkey : ((if earningsHas db u then db.earnings
        else db.earnings ++ [(u, 0)]).any fun p => p.1 == u) = true := by
      by_cases h : earningsHas db u = true
      · rw [if_pos h]; exact h
      · simp only [Bool.not_eq_true] at h
        simp [h, List.any_append]
    rw [balOf_updEarnings_eq _ _ _ hkey]
    by_cases h : earningsHas db u = true
    · simp [h, getBalance]
    · simp only [Bool.not_eq_true] at h
      simp [h, balOf_append_zero, getBalance]
  · rw [h1, if_neg hv, balOf_updEarnings_ne _ _ _ _ hv]
    by_cases h : earningsHas db u = true
    · simp [h, getBalance]
    · simp only [Bool.not_eq_true] at h
      simp [h, balOf_append_zero, getBalance]

lemma ensureUser_eq (db : DB) (uid : Nat) (un : Option String) (now : Nat) :
    ensureUser db uid un now
      = { db with
          users := if usersHas db uid then db.users else db.users ++ [⟨uid, un, now⟩],
          earnings := if earningsHas db uid then db.earnings
                      else db.earnings ++ [(uid, 0)] } := by
  unfold ensureUser
  by_cases h1 : usersHas db uid = true
  · rw [if_pos h1, if_pos h1]
    by_cases h2 : earningsHas db uid = true
    · rw [if_pos h2, if_pos h2]
    · rw [if_neg h2, if_neg h2]
  · rw [if_neg h1, if_neg h1]
    have h2eq : earningsHas { db with users := db.users ++ [⟨uid, un, now⟩] } uid
        = earningsHas db uid := rfl
    simp only [h2eq]
    by_cases h2 : earningsHas db uid = true
    · rw [if_pos h2, if_pos h2]
    · rw [if_neg h2, if_neg h2]

lemma getBalance_ensureUser (db : DB) (uid : Nat) (un : Option String)
    (now : Nat) (v : Nat) :
    getBalance (ensureUser db uid un now) v = getBalance db v := by
  rw [ensureUser_eq]
  show balOf (if earningsHas db uid then db.earnings
      else db.earnings ++ [(uid, 0)]) v = balOf db.earnings v
  by_cases h2 : earningsHas db uid = true
  · rw [if_pos h2]
  · rw [if_neg h2, balOf_append_zero]

lemma ensureUser_withdrawals (db : DB) (uid : Nat) (un : Option String) (now : Nat) :
    (ensureUser db uid un now).withdrawals = db.withdrawals := by
  rw [ensureUser_eq]

lemma ensureUser_nextWid (db : DB) (uid : Nat) (un : Option String) (now : Nat) :
    (ensureUser db uid un now).nextWid = db.nextWid := by
  rw [ensureUser_eq]

/-! ## Lemmas about the withdrawals table -/

lemma approvedTotalL_nil (uid : Nat) : approvedTotalL [] uid = 0 := rfl

lemma approvedTotalL_cons (x : WRec) (l : List WRec) (uid : Nat) :
    approvedTotalL (x :: l) uid
      = (if x.user_id == uid && x.status == WStatus.approved then x.amount else 0)
        + approvedTotalL l uid := by
  by_cases h : (x.user_id == uid && x.status == WStatus.approved) = true <;>
    simp [approvedTotalL, List.filter_cons, h]

lemma approvedTotalL_append (l1 l2 : List WRec) (uid : Nat) :
    approvedTotalL (l1 ++ l2) uid = approvedTotalL l1 uid + approvedTotalL l2 uid := by
  simp [approvedTotalL, List.filter_append]

lemma setApproved_cons (x : WRec) (l : List WRec) (wid : Nat) :
    setApproved (x :: l) wid
      = (if x.id == wid then { x with status := .approved } else x) :: setApproved l wid := rfl

lemma setApproved_eq_self (l : List WRec) (wid : Nat)
    (h : ∀ x ∈ l, (x.id == wid) = false) : setApproved l wid = l := by
  induction l with
  | nil => rfl
  | cons hd tl ih =>
    rw [setApproved_cons, h hd (List.mem_cons_self _ _),
        ih fun x hx => h x (List.mem_cons_of_mem _ hx)]
    simp

lemma setApproved_ids (l : List WRec) (wid : Nat) :
    (setApproved l wid).map (fun w => w.id) = l.map fun w => w.id := by
  induction l with
  | nil => rfl
  | cons hd tl ih =>
    by_cases h : (hd.id == wid) = true <;> simp [setApproved_cons, h, ih]

lemma findPendingW_setApproved (l : List WRec) (wid : Nat) :
    (setApproved l wid).find? (fun w => w.id == wid && w.status == WStatus.pending)
      = none := by
  induction l with
  | nil => rfl
  | cons hd tl ih =>
    by_cases h : (hd.id == wid) = true
    · simpa [setApproved_cons, h, List.find?_cons] using ih
    · simpa [setApproved_cons, h, List.find?_cons] using ih

lemma find?_cons_eq {α : Type} (p : α → Bool) (a : α) (l : List α) :
    (a :: l).find? p = if p a then some a else l.find? p := by
  by_cases h : p a = true <;> simp [List.find?_cons, h]

lemma approvedTotalL_setApproved (l : List WRec) (wid : Nat) (w : WRec) (uid : Nat)
    (hnodup : (l.map fun x => x.id).Nodup)
    (hfind : l.find? (fun x => x.id == wid && x.status == WStatus.pending) = some w) :
    approvedTotalL (setApproved l wid) uid
      = approvedTotalL l uid + (if w.user_id == uid then w.amount else 0) := by
  induction l with
  | nil => simp at hfind
  | cons hd tl ih =>
    rw [List.map_cons, List.nodup_cons] at hnodup
    rw [find?_cons_eq] at hfind
    by_cases hp : (hd.id == wid && hd.status == WStatus.pending) = true
    · rw [if_pos hp] at hfind
      injection hfind with hw
      subst hw
      rw [Bool.and_eq_true] at hp
      have hid : (hd.id == wid) = true := hp.1
      have hst : hd.status = WStatus.pending := by
        have h2 := hp.2
        simpa using h2
      have htl : setApproved tl wid = tl := by
        apply setApproved_eq_self
        intro x hx
        have hwid : hd.id = wid := by simpa using hid
        have hne : x.id ≠ wid := by
          intro hxw
          exact hnodup.1 (by
            rw [hwid, ← hxw]
            exact List.mem_map_of_mem (fun y => y.id) hx)
        simpa using hne
      rw [setApproved_cons, if_pos hid, htl, approvedTotalL_cons, approvedTotalL_cons]
      have h1 : (({ hd with status := WStatus.approved }).user_id == uid
          && ({ hd with status := WStatus.approved }).status == WStatus.approved)
          = (hd.user_id == uid) := by simp
      have h2 : (hd.user_id == uid && hd.status == WStatus.approved) = false := by
        rw [hst]; simp
      rw [h1, h2]
      simp [add_comm, add_left_comm]
    · rw [if_neg hp] at hfind
      by_cases hid : (hd.id == wid) = true
      · exfalso
        have hw : w ∈ tl := List.mem_of_find?_eq_some hfind
        have hwid : w.id = wid := by
          have h3 := List.find?_some hfind
          rw [Bool.and_eq_true] at h3
          simpa using h3.1
        have hdid : hd.id = wid := by simpa using hid
        exact hnodup.1 (by
          rw [hdid, ← hwid]
          exact List.mem_map_of_mem (fun y => y.id) hw)
      · rw [setApproved_cons, if_neg hid, approvedTotalL_cons, approvedTotalL_cons,
            ih hnodup.2 hfind]
        ring

/-- C2 (refuting the claimed atomicity): `process_incoming_otps_single_scraper`
commits `save_otp` and returns; `otp_poll_loop` only later runs
`credit_user`, in a separate connection/transaction and after awaited
notification sends.  The state in between — `midPollState` — is observable
(and is where a crash would leave the ledger): the pair is recorded, the
number has owner 7, yet 7's balance is still 0; only the completed cycle
credits the reward. -/
theorem c2_recorded_but_uncredited_state_observable :
    otpExists (midPollState c2Db c2Text 0) c2Number c2Otp = true
    ∧ getUserByNumber (midPollState c2Db c2Text 0) c2Number = some 7
    ∧ getBalance (midPollState c2Db c2Text 0) 7 = 0
    ∧ getBalance c2Db 7 = 0
    ∧ getBalance (pollCycle c2Db c2Text 1 0) 7 = 1 := by
  refine ⟨by decide, by decide, by decide, by decide, ?_⟩
  have hrun : processIncoming c2Db c2Text 0 = (c2Mid, [c2ResRec]) := by decide
  have hcred : creditResults c2Mid [c2ResRec] 1 = creditUser c2Mid 7 1 := by
    unfold creditResults
    simp only [List.foldl_cons, List.foldl_nil]
    rw [show getUserByNumber c2Mid c2ResRec.number = some 7 from by decide]
    simp
  unfold pollCycle
  rw [hrun, hcred, getBalance_creditUser]
  rw [show getBalance c2Mid 7 = 0 from by decide]
  norm_num

/-! ## The accounting invariant along ledger traces -/

lemma approveWithdrawal_none (db : DB) (wid : Nat)
    (h : findPendingW db wid = none) : approveWithdrawal db wid = (false, db) := by
  unfold approveWithdrawal
  rw [h]

lemma approveWithdrawal_some (db : DB) (wid : Nat) (w : WRec)
    (h : findPendingW db wid = some w) :
    approveWithdrawal db wid
      = match db.earnings.find? (fun p => p.1 == w.user_id) with
        | none => (false, db)
        | some p =>
          if p.2 < w.amount then (false, db)
          else (true, { db with
                        earnings := updEarnings db.earnings w.user_id (· - w.amount),
                        withdrawals := setApproved db.withdrawals wid }) := by
  unfold approveWithdrawal
  rw [h]

lemma approveWithdrawal_cases (db : DB) (wid : Nat) :
    approveWithdrawal db wid = (false, db)
    ∨ ∃ w p, findPendingW db wid = some w
        ∧ db.earnings.find? (fun q => q.1 == w.user_id) = some p
        ∧ ¬(p.2 < w.amount)
        ∧ approveWithdrawal db wid
          = (true, { db with
                     earnings := updEarnings db.earnings w.user_id (· - w.amount),
                     withdrawals := setApproved db.withdrawals wid }) := by
  rcases hfind : findPendingW db wid with _ | w
  · left
    exact approveWithdrawal_none db wid hfind
  · rw [approveWithdrawal_some db wid w hfind]
    rcases hrow : db.earnings.find? fun q => q.1 == w.user_id with _ | p
    · left
      rw [hrow]
    · rw [hrow]
      by_cases hlt : p.2 < w.amount
      · left
        show (if p.2 < w.amount then (false, db) else _) = (false, db)
        rw [if_pos hlt]
      · right
        refine ⟨w, p, rfl, hrow, hlt, ?_⟩
        show (if p.2 < w.amount then (false, db) else _) = _
        rw [if_neg hlt]

lemma BalInv_congr {d : DB} {c1 c2 : Nat → ℚ} (h : ∀ u, c1 u = c2 u)
    (hb : BalInv d c1) : BalInv d c2 := by
  intro u
  rw [← h u]
  exact hb u

lemma ensure_step (db : DB) (uid : Nat) (un : Option String) (now : Nat)
    (credits : Nat → ℚ) (hg : GoodW db) (hb : BalInv db credits) :
    GoodW (ensureUser db uid un now) ∧ BalInv (ensureUser db uid un now) credits := by
  constructor
  · constructor
    · rw [ensureUser_withdrawals]
      exact hg.1
    · intro w hw
      rw [ensureUser_nextWid]
      exact hg.2 w (by rwa [ensureUser_withdrawals] at hw)
  · intro u
    have ha : approvedTotal (ensureUser db uid un now) u = approvedTotal db u := by
      unfold approvedTotal
      rw [ensureUser_withdrawals]
    rw [getBalance_ensureUser, ha]
    exact hb u

lemma credit_step (db : DB) (u : Nat) (a : ℚ) (credits : Nat → ℚ) (ha : 0 ≤ a)
    (hg : GoodW db) (hb : BalInv db credits) :
    GoodW (creditUser db u a)
    ∧ BalInv (creditUser db u a) fun v => credits v + if u == v then a else 0 := by
  have hwd : (creditUser db u a).withdrawals = db.withdrawals := rfl
  have hnw : (creditUser db u a).nextWid = db.nextWid := rfl
  constructor
  · constructor
    · rw [hwd]; exact hg.1
    · intro w hw
      rw [hnw]
      exact hg.2 w (by rwa [hwd] at hw)
  · intro v
    dsimp only
    have hat : approvedTotal (creditUser db u a) v = approvedTotal db v := rfl
    rw [getBalance_creditUser, hat]
    by_cases hv : v = u
    · have hcond : (if (u == v) = true then a else 0) = a := by simp [hv]
      rw [if_pos hv, hcond]
      have h2 := (hb v).2
      refine ⟨?_, add_nonneg h2 ha⟩
      rw [(hb v).1]
      ring
    · have hcond : (if (u == v) = true then a else 0) = 0 := by
        have hne : (u == v) = false := by
          simp only [beq_eq_false_iff_ne, ne_eq]
          exact fun h => hv h.symm
        simp [hne]
      rw [if_neg hv, hcond]
      refine ⟨?_, (hb v).2⟩
      rw [(hb v).1]
      ring

lemma subW_step (db : DB) (uid : Nat) (amount : ℚ) (method : String)
    (target : List Char) (now : Nat) (credits : Nat → ℚ)
    (hg : GoodW db) (hb : BalInv db credits) :
    GoodW (createWithdrawal db uid amount method target now).2
    ∧ BalInv (createWithdrawal db uid amount method target now).2 credits := by
  constructor
  · constructor
    · show ((db.withdrawals
          ++ [(⟨db.nextWid, uid, amount, method, target, .pending, now⟩ : WRec)]).map
            fun w => w.id).Nodup
      rw [List.map_append]
      refine List.Nodup.append hg.1 (List.nodup_singleton _) ?_
      intro x hx hx2
      obtain ⟨y, hy, hyx⟩ := List.mem_map.1 hx
      have h1 : x < db.nextWid := hyx ▸ hg.2 y hy
      have h2 : x = db.nextWid := by simpa using hx2
      exact absurd h2 (Nat.ne_of_lt h1)
    · intro w hw
      show w.id < db.nextWid + 1
      rcases List.mem_append.1 hw with h | h
      · exact Nat.lt_succ_of_lt (hg.2 w h)
      · have h3 : w = (⟨db.nextWid, uid, amount, method, target, .pending, now⟩ : WRec) := by
          simpa using h
        rw [h3]
        exact Nat.lt_succ_self _
  · intro u
    have hbal : getBalance (createWithdrawal db uid amount method target now).2 u
        = getBalance db u := rfl
    have happr : approvedTotal (createWithdrawal db uid amount method target now).2 u
        = approvedTotal db u := by
      show approvedTotalL (db.withdrawals ++ [_]) u = _
      rw [approvedTotalL_append, approvedTotalL_cons, approvedTotalL_nil]
      simp [approvedTotal]
    rw [hbal, happr]
    exact hb u

lemma approve_step (db : DB) (wid : Nat) (credits : Nat → ℚ)
    (hg : GoodW db) (hb : BalInv db credits) :
    GoodW (approveWithdrawal db wid).2 ∧ BalInv (approveWithdrawal db wid).2 credits := by
  rcases approveWithdrawal_cases db wid with h | ⟨w, p, hfind, hrow, hlt, h⟩
  · rw [h]; exact ⟨hg, hb⟩
  · rw [h]
    have hpq : (p.1 == w.user_id) = true := by
      have h2 := List.find?_some hrow
      simpa using h2
    have hkey : (db.earnings.any fun q => q.1 == w.user_id) = true :=
      List.any_eq_true.2 ⟨p, List.mem_of_find?_eq_some hrow, hpq⟩
    have hbal : balOf db.earnings w.user_id = p.2 := by
      unfold balOf
      rw [hrow]
    have happr : ∀ u, approvedTotalL (setApproved db.withdrawals wid) u
        = approvedTotalL db.withdrawals u + (if w.user_id == u then w.amount else 0) :=
      fun u => approvedTotalL_setApproved db.withdrawals wid w u hg.1 hfind
    constructor
    · constructor
      · show ((setApproved db.withdrawals wid).map fun x => x.id).Nodup
        rw [setApproved_ids]
        exact hg.1
      · intro x hx
        show x.id < db.nextWid
        simp only [setApproved] at hx
        obtain ⟨y, hy, hxy⟩ := List.mem_map.1 hx
        have hid : x.id = y.id := by
          rw [← hxy]
          by_cases h2 : (y.id == wid) = true <;> simp [h2]
        rw [hid]
        exact hg.2 y hy
    · intro u
      show balOf (updEarnings db.earnings w.user_id (· - w.amount)) u
          = credits u - approvedTotalL (setApproved db.withdrawals wid) u
        ∧ 0 ≤ balOf (updEarnings db.earnings w.user_id (· - w.amount)) u
      rw [happr u]
      by_cases hu : u = w.user_id
      · rw [hu, balOf_updEarnings_eq _ _ _ hkey, hbal,
            show (w.user_id == w.user_id) = true from by simp, if_pos rfl]
        have he : p.2 = credits w.user_id - approvedTotalL db.withdrawals w.user_id := by
          have h1 := (hb w.user_id).1
          unfold getBalance at h1
          rw [hbal] at h1
          exact h1
        constructor
        · rw [he]; ring
        · have := not_lt.1 hlt
          linarith
      · have hcond : (if (w.user_id == u) = true then w.amount else 0) = 0 := by
          have hne : (w.user_id == u) = false := by
            simp only [beq_eq_false_iff_ne, ne_eq]
            exact fun h2 => hu h2.symm
          simp [hne]
        rw [balOf_updEarnings_ne _ _ _ _ hu, hcond]
        have h1 := hb u
        unfold getBalance approvedTotal at h1
        refine ⟨?_, h1.2⟩
        rw [h1.1]
        ring

lemma creditTotal_cons (e : Ev) (rest : List Ev) (u : Nat) :
    creditTotal (e :: rest) u = creditAmt u e + creditTotal rest u := by
  simp [creditTotal]

lemma trace_inv (evs : List Ev) :
    ∀ db credits, (∀ e ∈ evs, evNonneg e) → GoodW db → BalInv db credits →
      GoodW (evs.foldl applyEv db)
      ∧ BalInv (evs.foldl applyEv db) fun u => credits u + creditTotal evs u := by
  induction evs with
  | nil =>
    intro db credits _ hg hb
    refine ⟨hg, ?_⟩
    exact BalInv_congr (fun u => by simp [creditTotal]) hb
  | cons e rest ih =>
    intro db credits hnn hg hb
    have he := hnn e (List.mem_cons_self _ _)
    have hrest : ∀ x ∈ rest, evNonneg x := fun x hx => hnn x (List.mem_cons_of_mem _ hx)
    rw [List.foldl_cons]
    cases e with
    | ensure uid un now =>
      obtain ⟨hg1, hb1⟩ := ensure_step db uid un now credits hg hb
      obtain ⟨hg2, hb2⟩ := ih (applyEv db (.ensure uid un now)) credits hrest hg1 hb1
      refine ⟨hg2, BalInv_congr (fun u => ?_) hb2⟩
      rw [creditTotal_cons]
      simp [creditAmt]
    | credit cu ca =>
      obtain ⟨hg1, hb1⟩ := credit_step db cu ca credits he hg hb
      obtain ⟨hg2, hb2⟩ :=
        ih (applyEv db (.credit cu ca)) (fun v => credits v + if cu == v then ca else 0)
          hrest hg1 hb1
      refine ⟨hg2, BalInv_congr (fun u => ?_) hb2⟩
      rw [creditTotal_cons]
      show credits u + (if cu == u then ca else 0) + creditTotal rest u
          = credits u + (creditAmt u (.credit cu ca) + creditTotal rest u)
      show _ = credits u + ((if cu == u then ca else 0) + creditTotal rest u)
      ring
    | subW uid amount method target now =>
      obtain ⟨hg1, hb1⟩ := subW_step db uid amount method target now credits hg hb
      obtain ⟨hg2, hb2⟩ :=
        ih (applyEv db (.subW uid amount method target now)) credits hrest hg1 hb1
      refine ⟨hg2, BalInv_congr (fun u => ?_) hb2⟩
      rw [creditTotal_cons]
      simp [creditAmt]
    | approve wid =>
      obtain ⟨hg1, hb1⟩ := approve_step db wid credits hg hb
      obtain ⟨hg2, hb2⟩ := ih (applyEv db (.approve wid)) credits hrest hg1 hb1
      refine ⟨hg2, BalInv_congr (fun u => ?_) hb2⟩
      rw [creditTotal_cons]
      simp [creditAmt]

/-- C3: starting from the fresh database, after any sequence of ledger
events (registration, per-OTP credits with non-negative reward, withdrawal
submissions, approvals) every user's stored balance equals the credits
applied for that user minus the amounts debited by that user's approved
withdrawals, and it is never negative. -/
theorem c3_balance_accounting (evs : List Ev) (uid : Nat)
    (h : ∀ e ∈ evs, evNonneg e) :
    getBalance (runTrace evs) uid
      = creditTotal evs uid - approvedTotal (runTrace evs) uid
    ∧ 0 ≤ getBalance (runTrace evs) uid := by
  have hg0 : GoodW DB.empty := by
    constructor
    · simp [DB.empty]
    · intro w hw
      simp [DB.empty] at hw
  have hb0 : BalInv DB.empty fun _ => (0 : ℚ) := by
    intro u
    constructor
    · show (0 : ℚ) = 0 - approvedTotalL [] u
      rw [approvedTotalL_nil]
      ring
    · exact le_refl 0
  obtain ⟨_, hb⟩ := trace_inv evs DB.empty (fun _ => 0) h hg0 hb0
  have hu := hb uid
  unfold runTrace
  refine ⟨?_, hu.2⟩
  rw [hu.1]
  ring_nf

/-- C3 witness: register, credit 300, submit 260, approve: balance 40. -/
theorem c3_witness :
    getBalance (runTrace c3Evs) 1
      = creditTotal c3Evs 1 - approvedTotal (runTrace c3Evs) 1
    ∧ 0 ≤ getBalance (runTrace c3Evs) 1 :=
  c3_balance_accounting c3Evs 1 (by decide)

/-- C4: `approve(id)` fails exactly when the id names no pending request
(absent or already approved) or the requester's current balance is below the
requested amount; failure leaves the database unchanged (the request still
pending); success debits exactly the amount, leaves other balances alone,
flips the request to approved in the same committed step, and a second
approval of the same id then fails.  The hypothesis — every stored
withdrawal's user has an earnings row — holds on reachable states: both
submission paths run `ensure_user` before `create_withdrawal`. -/
theorem c4_approve_semantics (db : DB) (wid : Nat)
    (hearn : ∀ w ∈ db.withdrawals, earningsHas db w.user_id = true) :
    ((approveWithdrawal db wid).1 = false ↔
       findPendingW db wid = none
       ∨ ∃ w, findPendingW db wid = some w ∧ getBalance db w.user_id < w.amount)
    ∧ ((approveWithdrawal db wid).1 = false → (approveWithdrawal db wid).2 = db)
    ∧ ∀ w, findPendingW db wid = some w → w.amount ≤ getBalance db w.user_id →
        (approveWithdrawal db wid).1 = true
        ∧ getBalance (approveWithdrawal db wid).2 w.user_id
            = getBalance db w.user_id - w.amount
        ∧ (∀ u, u ≠ w.user_id →
            getBalance (approveWithdrawal db wid).2 u = getBalance db u)
        ∧ findPendingW (approveWithdrawal db wid).2 wid = none
        ∧ (approveWithdrawal (approveWithdrawal db wid).2 wid).1 = false := by
  rcases hfind : findPendingW db wid with _ | w
  · have h0 : approveWithdrawal db wid = (false, db) := approveWithdrawal_none db wid hfind
    refine ⟨?_, fun _ => by rw [h0], ?_⟩
    · rw [h0]
      constructor
      · intro _
        left
        rfl
      · intro _
        rfl
    · intro w hw
      cases hw
  · have hwmem : w ∈ db.withdrawals := List.mem_of_find?_eq_some hfind
    have hhas := hearn w hwmem
    have hsome : (db.earnings.find? fun q => q.1 == w.user_id).isSome := by
      rw [List.find?_isSome]
      simpa [earningsHas, List.any_eq_true] using hhas
    obtain ⟨p, hrow⟩ := Option.isSome_iff_exists.1 hsome
    have hbal : getBalance db w.user_id = p.2 := by
      unfold getBalance balOf
      rw [hrow]
    have hkey : (db.earnings.any fun q => q.1 == w.user_id) = true := hhas
    by_cases hlt : p.2 < w.amount
    · have h0 : approveWithdrawal db wid = (false, db) := by
        rw [approveWithdrawal_some db wid w hfind, hrow]
        show (if p.2 < w.amount then (false, db) else _) = _
        rw [if_pos hlt]
      refine ⟨?_, fun _ => by rw [h0], ?_⟩
      · rw [h0]
        constructor
        · intro _
          right
          exact ⟨w, rfl, by rw [hbal]; exact hlt⟩
        · intro _
          rfl
      · intro w2 hw2 hle
        injection hw2 with he2
        subst he2
        rw [hbal] at hle
        exact absurd hlt (not_lt.2 hle)
    · have h0 : approveWithdrawal db wid
          = (true, { db with
                     earnings := updEarnings db.earnings w.user_id (· - w.amount),
                     withdrawals := setApproved db.withdrawals wid }) := by
        rw [approveWithdrawal_some db wid w hfind, hrow]
        show (if p.2 < w.amount then (false, db) else _) = _
        rw [if_neg hlt]
      have hnone2 : findPendingW (approveWithdrawal db wid).2 wid = none := by
        rw [h0]
        show (setApproved db.withdrawals wid).find? _ = none
        exact findPendingW_setApproved db.withdrawals wid
      refine ⟨?_, ?_, ?_⟩
      · rw [h0]
        constructor
        · intro h2
          simp at h2
        · rintro (hnone | ⟨w2, hw2, hblt⟩)
          · cases hnone
          · injection hw2 with he2
            subst he2
            rw [hbal] at hblt
            exact absurd hblt hlt
      · intro h2
        rw [h0] at h2
        simp at h2
      · intro w2 hw2 hle
        injection hw2 with he2
        subst he2
        refine ⟨by rw [h0], ?_, ?_, hnone2, ?_⟩
        · rw [h0]
          show balOf (updEarnings db.earnings w.user_id (· - w.amount)) w.user_id = _
          rw [balOf_updEarnings_eq _ _ _ hkey]
          rfl
        · intro u hu
          rw [h0]
          show balOf (updEarnings db.earnings w.user_id (· - w.amount)) u = _
          rw [balOf_updEarnings_ne _ _ _ _ hu]
          rfl
        · rw [approveWithdrawal_none _ wid hnone2]

/-- C4 witness: balance 300, pending request 1 over 260: approval succeeds,
debits 260, and cannot be applied twice. -/
theorem c4_witness :
    (approveWithdrawal c4Db 1).1 = true
    ∧ getBalance (approveWithdrawal c4Db 1).2 5 = getBalance c4Db 5 - 260
    ∧ findPendingW (approveWithdrawal c4Db 1).2 1 = none
    ∧ (approveWithdrawal (approveWithdrawal c4Db 1).2 1).1 = false := by
  have h := (c4_approve_semantics c4Db 1 (by decide)).2.2 c4W (by decide) (by decide)
  exact ⟨h.1, h.2.1, h.2.2.2.1, h.2.2.2.2⟩

/-- C10: calling `ensure_user` for an already-present user id leaves that
user's stored row (username and creation timestamp) and every balance
unchanged, whatever username is passed; registering a fresh id creates
exactly one users row and one earnings row holding balance 0. -/
theorem c10_ensure_user_frame (db : DB) (uid : Nat) (un un2 : Option String)
    (now now2 : Nat) (u : Nat) :
    (usersHas db uid = true →
      lookupUser (ensureUser db uid un2 now2) uid = lookupUser db uid)
    ∧ getBalance (ensureUser db uid un2 now2) u = getBalance db u
    ∧ (usersHas db uid = false → earningsHas db uid = false →
        usersCount (ensureUser db uid un now) uid = 1
        ∧ earnRowsCount (ensureUser db uid un now) uid = 1
        ∧ getBalance (ensureUser db uid un now) uid = 0) := by
  refine ⟨?_, getBalance_ensureUser db uid un2 now2 u, ?_⟩
  · intro h1
    rw [ensureUser_eq]
    show List.find? _ (if usersHas db uid then db.users else _) = _
    rw [if_pos h1]
    rfl
  · intro h1 h2
    have hcu : db.users.filter (fun r => r.user_id == uid) = [] := by
      rw [List.filter_eq_nil_iff]
      intro r hr hru
      have : usersHas db uid = true := List.any_eq_true.2 ⟨r, hr, hru⟩
      rw [h1] at this
      cases this
    have hce : db.earnings.filter (fun p => p.1 == uid) = [] := by
      rw [List.filter_eq_nil_iff]
      intro r hr hru
      have : earningsHas db uid = true := List.any_eq_true.2 ⟨r, hr, hru⟩
      rw [h2] at this
      cases this
    refine ⟨?_, ?_, ?_⟩
    · show ((ensureUser db uid un now).users.filter fun r => r.user_id == uid).length = 1
      rw [ensureUser_eq]
      show ((if usersHas db uid then db.users
          else db.users ++ [⟨uid, un, now⟩]).filter fun r => r.user_id == uid).length = 1
      rw [if_neg (by rw [h1]; exact Bool.false_ne_true), List.filter_append, hcu]
      simp
    · show ((ensureUser db uid un now).earnings.filter fun p => p.1 == uid).length = 1
      rw [ensureUser_eq]
      show ((if earningsHas db uid then db.earnings
          else db.earnings ++ [(uid, 0)]).filter fun p => p.1 == uid).length = 1
      rw [if_neg (by rw [h2]; exact Bool.false_ne_true), List.filter_append, hce]
      simp
    · rw [getBalance_ensureUser]
      unfold getBalance balOf
      have hnone : db.earnings.find? (fun p => p.1 == uid) = none := by
        rw [List.find?_eq_none]
        intro r hr hru
        have : earningsHas db uid = true := List.any_eq_true.2 ⟨r, hr, hru⟩
        rw [h2] at this
        cases this
      rw [hnone]

/-- C10 witness: re-registering user 3 changes nothing; registering fresh
user 8 creates one row in each table with balance 0. -/
theorem c10_witness :
    lookupUser (ensureUser c10Db 3 (some "intruder") 9) 3 = lookupUser c10Db 3
    ∧ getBalance (ensureUser c10Db 3 (some "intruder") 9) 3 = getBalance c10Db 3
    ∧ usersCount (ensureUser DB.empty 8 (some "bob") 2) 8 = 1
    ∧ earnRowsCount (ensureUser DB.empty 8 (some "bob") 2) 8 = 1
    ∧ getBalance (ensureUser DB.empty 8 (some "bob") 2) 8 = 0 := by
  have h1 := c10_ensure_user_frame c10Db 3 none (some "intruder") 0 9 3
  have h2 := c10_ensure_user_frame DB.empty 8 (some "bob") none 2 0 8
  have h3 := h2.2.2 (by decide) (by decide)
  exact ⟨h1.1 (by decide), h1.2.1, h3.1, h3.2.1, h3.2.2⟩

/-- C5 counterexample: with minimum 250 and balance 300, the prompt step
passes (it compares the *balance* against the minimum), and a submission of
amount 10 — far below the configured minimum — is accepted: request 1 over
10 is created pending.  The claim "a submission with A below the configured
minimum is rejected and creates no request" fails on the code. -/
theorem c5_counterexample :
    (cbWithdraw 250 c5Db [] 1 none 0).2 = [1]
    ∧ (handleWithdrawText (cbWithdraw 250 c5Db [] 1 none 0).1
        (cbWithdraw 250 c5Db [] 1 none 0).2 1 "bkash" "0170".toList 10 1).2.2 = some 1
    ∧ (handleWithdrawText (cbWithdraw 250 c5Db [] 1 none 0).1
        (cbWithdraw 250 c5Db [] 1 none 0).2 1 "bkash" "0170".toList 10 1).1.withdrawals
      = [⟨1, 1, 10, "bkash", "0170".toList, .pending, 1⟩]
    ∧ (10 : ℚ) < 250 := by decide

/-- C5 (amended): a pending request (with its id returned) is created iff
the user is in the awaiting state — which is entered only when the *balance*
at prompt time is at least the configured minimum — and the submitted
amount is at most the user's current balance; the amount itself is never
compared against the minimum, and no balance is debited or reserved at
submission time (the earnings table is untouched). -/
theorem c5_submission_amended (minW : ℚ) (db : DB) (st : List Nat) (uid : Nat)
    (un : Option String) (nowp now : Nat) (method : String) (target : List Char)
    (amount : ℚ) (u : Nat) :
    ((cbWithdraw minW db st uid un nowp).2
      = if getBalance (ensureUser db uid un nowp) uid < minW then st
        else if st.contains uid then st else st ++ [uid])
    ∧ getBalance (cbWithdraw minW db st uid un nowp).1 u = getBalance db u
    ∧ ((handleWithdrawText db st uid method target amount now).2.2 ≠ none
        ↔ st.contains uid = true ∧ amount ≤ getBalance db uid)
    ∧ (handleWithdrawText db st uid method target amount now).1.earnings = db.earnings
    ∧ (handleWithdrawText db st uid method target amount now).1.withdrawals
      = if st.contains uid = true ∧ amount ≤ getBalance db uid
        then db.withdrawals ++ [⟨db.nextWid, uid, amount, method, target, .pending, now⟩]
        else db.withdrawals := by
  refine ⟨?_, ?_, ?_, ?_, ?_⟩
  · unfold cbWithdraw
    by_cases h : getBalance (ensureUser db uid un nowp) uid < minW
    · rw [if_pos h, if_pos h]
    · rw [if_neg h, if_neg h]
  · unfold cbWithdraw
    by_cases h : getBalance (ensureUser db uid un nowp) uid < minW
    · rw [if_pos h]
      exact getBalance_ensureUser db uid un nowp u
    · rw [if_neg h]
      exact getBalance_ensureUser db uid un nowp u
  · unfold handleWithdrawText
    by_cases h1 : uid ∈ st
    · by_cases h2 : getBalance db uid < amount
      · simp [h1, h2, not_le.2 h2]
      · simp [h1, h2, not_lt.1 h2]
    · simp [h1]
  · unfold handleWithdrawText
    have he : (createWithdrawal db uid amount method target now).2.earnings
        = db.earnings := rfl
    by_cases h1 : uid ∈ st
    · by_cases h2 : getBalance db uid < amount
      · simp [h1, h2, he]
      · simp [h1, h2, he]
    · simp [h1]
  · unfold handleWithdrawText
    have hw : (createWithdrawal db uid amount method target now).2.withdrawals
        = db.withdrawals ++ [⟨db.nextWid, uid, amount, method, target, .pending, now⟩] := rfl
    by_cases h1 : uid ∈ st
    · by_cases h2 : getBalance db uid < amount
      · simp [h1, h2, hw, not_le.2 h2]
      · simp [h1, h2, hw, not_lt.1 h2]
    · simp [h1]

/-! ## Shape of mined OTP codes -/

lemma digitRun_le_length (s : List Char) : digitRun s ≤ s.length := by
  induction s with
  | nil => exact le_refl 0
  | cons c cs ih =>
    by_cases h : c.isDigit = true
    · simpa [digitRun, h] using ih
    · simp [digitRun, h]

lemma digitRun_take_all (s : List Char) :
    ((s.take (digitRun s)).all Char.isDigit) = true := by
  induction s with
  | nil => rfl
  | cons c cs ih =>
    by_cases h : c.isDigit = true
    · simpa [digitRun, h, List.take_succ_cons] using ih
    · simp [digitRun, h]

lemma otpSearchAux_shape (fuel : Nat) :
    ∀ (prevW : Bool) (s o : List Char), otpSearchAux fuel prevW s = some o →
      o.all Char.isDigit = true ∧ 4 ≤ o.length ∧ o.length ≤ 8 := by
  induction fuel with
  | zero => intro prevW s o h; simp [otpSearchAux] at h
  | succ n ih =>
    intro prevW s o h
    match s with
    | [] => simp [otpSearchAux] at h
    | c :: cs =>
      rw [otpSearchAux] at h
      split at h
      · rename_i hcond
        injection h with he
        subst he
        simp only [Bool.and_eq_true, decide_eq_true_eq] at hcond
        refine ⟨digitRun_take_all (c :: cs), ?_, ?_⟩
        · rw [List.length_take]
          have h4 := hcond.1.1.1.2
          have hle := digitRun_le_length (c :: cs)
          omega
        · rw [List.length_take]
          have h8 := hcond.1.1.2
          omega
      · exact ih (isWordChar c) cs o h

lemma otpSearch_shape (w o : List Char) (h : otpSearch w = some o) :
    o.all Char.isDigit = true ∧ 4 ≤ o.length ∧ o.length ≤ 8 :=
  otpSearchAux_shape w.length false w o h

lemma occOtp_shape (text : List Char) (i e : Nat) (o : List Char)
    (h : occOtp text i e = some o) :
    o.all Char.isDigit = true ∧ 4 ≤ o.length ∧ o.length ≤ 8 := by
  unfold occOtp at h
  rcases h2 : otpSearch (fwdWindow text e) with _ | o2
  · rw [h2] at h
    exact otpSearch_shape _ _ h
  · rw [h2] at h
    injection h with he
    subst he
    exact otpSearch_shape _ _ h2

lemma processOccsL_res_otp_shape (text : List Char) (now : Nat)
    (occs : List (Nat × Nat)) :
    ∀ hist r, r ∈ (processOccsL text now hist occs).2 →
      r.otp.all Char.isDigit = true ∧ 4 ≤ r.otp.length ∧ r.otp.length ≤ 8 := by
  induction occs with
  | nil => intro hist r hr; simp [processOccsL] at hr
  | cons occ rest ih =>
    intro hist r hr
    obtain ⟨i, L⟩ := occ
    rcases hocc : occOtp text i (i + L) with _ | o0
    · exact ih hist r (by simpa [processOccsL, hocc] using hr)
    · by_cases hex : otpExistsL hist (sliceAt text i L) o0 = true
      · exact ih hist r (by simpa [processOccsL, hocc, hex] using hr)
      · simp only [Bool.not_eq_true] at hex
        simp only [processOccsL, hocc, hex, Bool.false_eq_true, if_false] at hr
        rcases List.mem_cons.1 hr with rfl | hr'
        · exact occOtp_shape text i (i + L) o0 hocc
        · exact ih _ r hr'

/-- C6 counterexample: on `c6Text` with empty history the matcher emits the
OTP code "123456", which itself matches the phone-number shape (optional
`+`, 6–15 digits) — `OTP_RE = \b(\d{4,8})\b` carries no phone-shape
exclusion, so the claim "a digit run which matches the phone-number shape is
never emitted as an OTP code" fails on the code. -/
theorem c6_counterexample :
    ((processIncoming DB.empty c6Text 0).2.map fun r => r.otp)
      = ["123456".toList]
    ∧ phoneShapedB "123456".toList = true := by decide

/-- C6 (amended): the OTP taken for a number occurrence is the first
word-bounded run of 4 to 8 digits in the forward window (else the backward
window), with no exclusion of phone-number-shaped runs: every emitted OTP
code is a 4–8 digit string, and (per the counterexample) may itself be
phone-number shaped when it has 6 to 8 digits. -/
theorem c6_otp_shape_amended (db : DB) (text : List Char) (now : Nat)
    (r : OtpRec) (hr : r ∈ (processIncoming db text now).2) :
    r.otp.all Char.isDigit = true ∧ 4 ≤ r.otp.length ∧ r.otp.length ≤ 8 := by
  refine processOccsL_res_otp_shape text now (findPhonesList text) db.otps r ?_
  simpa [processIncoming] using hr

/-- C6 witness: the record mined from `c6SmallText` is emitted and its OTP
"9999" is a 4-digit run. -/
theorem c6_witness :
    c6Rec ∈ (processIncoming DB.empty c6SmallText 0).2
    ∧ (c6Rec.otp.all Char.isDigit = true
        ∧ 4 ≤ c6Rec.otp.length ∧ c6Rec.otp.length ≤ 8) :=
  ⟨by decide, c6_otp_shape_amended DB.empty c6SmallText 0 c6Rec (by decide)⟩

/-! ## The matcher's window policy -/

lemma processOccsL_emits (text : List Char) (now : Nat) (occs : List (Nat × Nat))
    (i L : Nat) (c : List Char) :
    ∀ hist, (i, L) ∈ occs → occOtp text i (i + L) = some c →
      otpExistsL hist (sliceAt text i L) c = false →
      (sliceAt text i L, c) ∈ (processOccsL text now hist occs).2.map pairOf := by
  induction occs with
  | nil =>
    intro hist hmem
    simp at hmem
  | cons occ rest ih =>
    intro hist hmem hocc hfresh
    obtain ⟨j, M⟩ := occ
    rcases List.mem_cons.1 hmem with heq | hmem'
    · injection heq with h1 h2
      subst h1
      subst h2
      simp only [processOccsL, hocc, hfresh, Bool.false_eq_true, if_false,
        List.map_cons]
      exact List.mem_cons_self _ _
    · rcases hocc2 : occOtp text j (j + M) with _ | o0
      · simp only [processOccsL, hocc2]
        exact ih hist hmem' hocc hfresh
      · by_cases hex : otpExistsL hist (sliceAt text j M) o0 = true
        · simp only [processOccsL, hocc2, hex, if_true]
          exact ih hist hmem' hocc hfresh
        · simp only [Bool.not_eq_true] at hex
          simp only [processOccsL, hocc2, hex, Bool.false_eq_true, if_false,
            List.map_cons]
          by_cases hpair : sliceAt text j M = sliceAt text i L ∧ o0 = c
          · have hpq : pairOf (occRec text now j M o0) = (sliceAt text i L, c) := by
              simp [pairOf, occRec, hpair.1, hpair.2]
            rw [hpq]
            exact List.mem_cons_self _ _
          · have hb2 : ((occRec text now j M o0).number == sliceAt text i L
                && (occRec text now j M o0).otp == c) = false := by
              by_cases hbb : ((occRec text now j M o0).number == sliceAt text i L
                  && (occRec text now j M o0).otp == c) = true
              · exfalso
                rw [Bool.and_eq_true] at hbb
                exact hpair ⟨by simpa [occRec] using hbb.1, by simpa [occRec] using hbb.2⟩
              · simpa using hbb
            have hfresh2 : otpExistsL (hist ++ [occRec text now j M o0])
                (sliceAt text i L) c = false := by
              rw [otpExistsL_append, hfresh, hb2]
              rfl
            exact List.mem_cons_of_mem _ (ih _ hmem' hocc hfresh2)

lemma processOccsL_skip (text : List Char) (now : Nat) (i L : Nat)
    (h : occOtp text i (i + L) = none) (l2 : List (Nat × Nat)) :
    ∀ (l1 : List (Nat × Nat)) hist,
      processOccsL text now hist (l1 ++ (i, L) :: l2)
        = processOccsL text now hist (l1 ++ l2) := by
  intro l1
  induction l1 with
  | nil =>
    intro hist
    simp only [List.nil_append, processOccsL, h]
  | cons occ rest ih =>
    intro hist
    obtain ⟨j, M⟩ := occ
    rw [List.cons_append, List.cons_append]
    simp only [processOccsL]
    rcases hocc2 : occOtp text j (j + M) with _ | o0
    · exact ih hist
    · by_cases hex : otpExistsL hist (sliceAt text j M) o0 = true
      · simp only [hex, if_true]
        exact ih hist
      · simp only [Bool.not_eq_true] at hex
        simp only [hex, Bool.false_eq_true, if_false]
        rw [ih (hist ++ [occRec text now j M o0])]

/-- C7: the Matcher's window policy.  (a) For a number occurrence `(i, L)`
whose code `c` is the OTP run found in the 400-character forward window
after the match end, the matcher yields the `(number, c)` tuple (when the
pair is not already recorded).  (b) For an occurrence whose two windows —
400 characters forward, 200 characters backward — contain no word-bounded
4–8 digit run (in particular when the only run sits further than 400
characters after the match and nothing is within 200 before), the matcher
yields nothing for that occurrence: the loop result is as if the occurrence
were absent. -/
theorem c7_matcher_window_policy (db : DB) (text : List Char) (now i L : Nat)
    (c : List Char) (l1 l2 : List (Nat × Nat)) :
    ((i, L) ∈ findPhonesList text →
      otpSearch (fwdWindow text (i + L)) = some c →
      otpExistsL db.otps (sliceAt text i L) c = false →
      (sliceAt text i L, c) ∈ (processIncoming db text now).2.map pairOf)
    ∧ (occOtp text i (i + L) = none →
      processOccsL text now db.otps (l1 ++ (i, L) :: l2)
        = processOccsL text now db.otps (l1 ++ l2)) := by
  constructor
  · intro hmem hfwd hfresh
    have hocc : occOtp text i (i + L) = some c := by
      unfold occOtp
      rw [hfwd]
    have h1 := processOccsL_emits text now (findPhonesList text) i L c db.otps
      hmem hocc hfresh
    simpa [processIncoming] using h1
  · intro hnone
    exact processOccsL_skip text now i L hnone l2 l1 db.otps

set_option maxRecDepth 10000 in
/-- C7 witness: the spec's example text yields ("+8801700000000", "4821");
the far variant (code 440 characters after the number, nothing before)
yields nothing for the occurrence. -/
theorem c7_witness :
    ((0, 14) ∈ findPhonesList c7Text
      ∧ (sliceAt c7Text 0 14, c7Code)
          ∈ (processIncoming DB.empty c7Text 0).2.map pairOf)
    ∧ (occOtp c7FarText 0 (0 + 14) = none
      ∧ processOccsL c7FarText 0 DB.empty.otps ([] ++ (0, 14) :: [])
          = processOccsL c7FarText 0 DB.empty.otps ([] ++ [])) := by
  constructor
  · refine ⟨by decide, ?_⟩
    exact (c7_matcher_window_policy DB.empty c7Text 0 0 14 c7Code [] []).1
      (by decide) (by decide) (by decide)
  · refine ⟨by decide, ?_⟩
    exact (c7_matcher_window_policy DB.empty c7FarText 0 0 14 c7Code [] []).2
      (by decide)

/-! ## Inventory sync -/

lemma syncFold_snd (l : List (List Char)) (now : Nat) :
    ∀ (db : DB) (acc : Nat),
      (l.foldl (fun a num => (a.1 + 1, addAvailableNumber a.2 num "UNKNOWN" now))
        (acc, db)).2
      = l.foldl (fun d num => addAvailableNumber d num "UNKNOWN" now) db := by
  induction l with
  | nil => intro db acc; rfl
  | cons hd tl ih =>
    intro db acc
    rw [List.foldl_cons, List.foldl_cons]
    exact ih (addAvailableNumber db hd "UNKNOWN" now) (acc + 1)

lemma syncFold_fst (l : List (List Char)) (now : Nat) :
    ∀ (db : DB) (acc : Nat),
      (l.foldl (fun a num => (a.1 + 1, addAvailableNumber a.2 num "UNKNOWN" now))
        (acc, db)).1
      = acc + l.length := by
  induction l with
  | nil => intro db acc; simp
  | cons hd tl ih =>
    intro db acc
    rw [List.foldl_cons, ih (addAvailableNumber db hd "UNKNOWN" now) (acc + 1)]
    simp only [List.length_cons]
    omega

lemma numbersHasKey_addAvailable (db : DB) (num num2 : List Char)
    (country : String) (now : Nat) :
    numbersHasKey (addAvailableNumber db num2 country now) num
      = (numbersHasKey db num || (num2 == num)) := by
  unfold addAvailableNumber
  by_cases h : numbersHasKey db num2 = true
  · rw [if_pos h]
    by_cases h2 : (num2 == num) = true
    · have h3 : num2 = num := by simpa using h2
      rw [h2, ← h3, h]
      rfl
    · have h2f : (num2 == num) = false := by simpa using h2
      rw [h2f]
      simp
  · simp only [Bool.not_eq_true] at h
    rw [if_neg (by rw [h]; exact Bool.false_ne_true)]
    show ((db.numbers ++ [(⟨num2, country, none, now⟩ : NumRec)]).any
        fun r => r.number == num) = _
    rw [List.any_append]
    simp
    rfl

lemma find?_append_left (p : NumRec → Bool) (l1 l2 : List NumRec)
    (h : (l1.any p) = true) : (l1 ++ l2).find? p = l1.find? p := by
  induction l1 with
  | nil => simp at h
  | cons hd tl ih =>
    rw [List.cons_append, find?_cons_eq, find?_cons_eq]
    by_cases hp : p hd = true
    · rw [if_pos hp, if_pos hp]
    · rw [if_neg hp, if_neg hp]
      simp only [Bool.not_eq_true] at hp
      exact ih (by simpa [List.any_cons, hp] using h)

lemma lookupNumber_addAvailable_of_has (db : DB) (num num2 : List Char)
    (country : String) (now : Nat) (h : numbersHasKey db num = true) :
    lookupNumber (addAvailableNumber db num2 country now) num = lookupNumber db num := by
  unfold addAvailableNumber
  by_cases h2 : numbersHasKey db num2 = true
  · rw [if_pos h2]
  · rw [if_neg h2]
    show List.find? _ (db.numbers ++ [_]) = _
    rw [find?_append_left _ _ _ h]
    rfl

lemma addAvailable_of_has (db : DB) (num : List Char) (country : String) (now : Nat)
    (h : numbersHasKey db num = true) :
    addAvailableNumber db num country now = db := by
  unfold addAvailableNumber
  rw [if_pos h]

lemma addFold_has_mono (l : List (List Char)) (now : Nat) :
    ∀ (db : DB) (num : List Char), numbersHasKey db num = true →
      numbersHasKey (l.foldl (fun d n => addAvailableNumber d n "UNKNOWN" now) db) num
        = true := by
  induction l with
  | nil => intro db num h; exact h
  | cons hd tl ih =>
    intro db num h
    rw [List.foldl_cons]
    exact ih _ num (by rw [numbersHasKey_addAvailable, h]; rfl)

lemma addFold_has_all (l : List (List Char)) (now : Nat) :
    ∀ (db : DB) num, num ∈ l →
      numbersHasKey (l.foldl (fun d n => addAvailableNumber d n "UNKNOWN" now) db) num
        = true := by
  induction l with
  | nil => intro db num h; simp at h
  | cons hd tl ih =>
    intro db num h
    rw [List.foldl_cons]
    rcases List.mem_cons.1 h with rfl | h'
    · apply addFold_has_mono
      rw [numbersHasKey_addAvailable]
      simp
    · exact ih _ num h'

lemma addFold_idem (l : List (List Char)) (now2 : Nat) :
    ∀ (db : DB), (∀ num ∈ l, numbersHasKey db num = true) →
      l.foldl (fun d n => addAvailableNumber d n "UNKNOWN" now2) db = db := by
  induction l with
  | nil => intro db _; rfl
  | cons hd tl ih =>
    intro db h
    rw [List.foldl_cons, addAvailable_of_has db hd _ now2 (h hd (List.mem_cons_self _ _))]
    exact ih db fun num hn => h num (List.mem_cons_of_mem _ hn)

lemma addFold_lookup (l : List (List Char)) (now : Nat) :
    ∀ (db : DB) (num : List Char), numbersHasKey db num = true →
      lookupNumber (l.foldl (fun d n => addAvailableNumber d n "UNKNOWN" now) db) num
        = lookupNumber db num := by
  induction l with
  | nil => intro db num _; rfl
  | cons hd tl ih =>
    intro db num h
    rw [List.foldl_cons,
        ih _ num (by rw [numbersHasKey_addAvailable, h]; rfl),
        lookupNumber_addAvailable_of_has db num hd _ now h]

/-- C8: inventory sync is idempotent on the store — syncing the same raw
text a second time inserts nothing and changes nothing — and a number
already present before a sync keeps its exact row (country, owner,
timestamp): insertion happens only when the key is absent. -/
theorem c8_sync_idempotent (db : DB) (text : List Char) (now now2 : Nat)
    (num : List Char) (h : numbersHasKey db num = true) :
    syncStore (syncStore db text now) text now2 = syncStore db text now
    ∧ lookupNumber (syncStore db text now) num = lookupNumber db num := by
  have hs : ∀ (d : DB) (n : Nat), syncStore d text n
      = (extractNumbers text).eraseDups.foldl
          (fun d2 n2 => addAvailableNumber d2 n2 "UNKNOWN" n) d := by
    intro d n
    unfold syncStore syncNumbers
    exact syncFold_snd _ n d 0
  constructor
  · rw [hs, hs]
    apply addFold_idem
    intro n2 hn2
    exact addFold_has_all _ now db n2 hn2
  · rw [hs]
    exact addFold_lookup _ now db num h

/-- C8 witness: a store already holding `1234567`; syncing text containing
only that number twice changes nothing, and its row is untouched. -/
theorem c8_witness :
    numbersHasKey c8Db "1234567".toList = true
    ∧ (syncStore (syncStore c8Db c9Text 0) c9Text 1 = syncStore c8Db c9Text 0
       ∧ lookupNumber (syncStore c8Db c9Text 0) "1234567".toList
           = lookupNumber c8Db "1234567".toList) :=
  ⟨by decide, c8_sync_idempotent c8Db c9Text 0 1 "1234567".toList (by decide)⟩

/-- C9 counterexample: `sync_numbers_from_ivasms` increments its counter for
every distinct extracted number whether or not it was already stored: on
`"1234567"` the first sync returns 1 and inserts the number, and a second
sync on identical text returns 1 again — not 0 — while inserting nothing.
The claim "the count of numbers absent before the call; a second sync
returns 0" fails on the code. -/
theorem c9_counterexample :
    (syncNumbers DB.empty c9Text 0).1 = 1
    ∧ (syncNumbers (syncNumbers DB.empty c9Text 0).2 c9Text 1).1 = 1
    ∧ (syncNumbers (syncNumbers DB.empty c9Text 0).2 c9Text 1).2
        = (syncNumbers DB.empty c9Text 0).2
    ∧ ¬(syncNumbers (syncNumbers DB.empty c9Text 0).2 c9Text 1).1 = 0 := by decide

/-- C9 (amended): sync returns the number of distinct phone-number-shaped
substrings extracted from the snapshot — numbers touched, present-or-created
— independent of the prior store state; a second sync on identical text
returns the same count again. -/
theorem c9_sync_count_amended (db db2 : DB) (text : List Char) (now now2 now3 : Nat) :
    (syncNumbers db text now).1 = (extractNumbers text).eraseDups.length
    ∧ (syncNumbers db text now).1 = (syncNumbers db2 text now2).1
    ∧ (syncNumbers (syncNumbers db text now).2 text now3).1
        = (syncNumbers db text now).1 := by
  have hc : ∀ (d : DB) (n : Nat), (syncNumbers d text n).1
      = (extractNumbers text).eraseDups.length := by
    intro d n
    unfold syncNumbers
    rw [syncFold_fst _ n d 0]
    omega
  exact ⟨hc db now, by rw [hc, hc], by rw [hc, hc]⟩

/-- C1 witness: the duplicate-snapshot text, processed twice from an empty
history. -/
theorem c1_witness :
    pairCount DB.empty.otps "1234567".toList "9999".toList ≤ 1
    ∧ (pairCount (processMany DB.empty ((c1Text, 0) :: [(c1Text, 1)])).otps
          "1234567".toList "9999".toList ≤ 1
       ∧ ((processIncoming DB.empty c1Text 0).2.map pairOf).Nodup) :=
  ⟨by decide,
   c1_otp_history_pair_unique DB.empty c1Text 0 [(c1Text, 1)]
     "1234567".toList "9999".toList (by decide)⟩

end IvasmsBot
